import Mathlib

/-!
Verification of the MarketSync prediction-and-backtest pipeline
(`app/services/ai_service.py`, `app/services/data_service.py`, `app/main.py`).

The pandas/sklearn pipeline is shallowly embedded over `ℚ`-valued column
lists.  A pandas series cell that is `NaN` is embedded as `none : Option ℚ`.
The embedding is faithful on the documented input domain (rectangular tables
of strictly positive prices): on that domain no division by zero occurs in
`pct_change` or in the moving-average ratio, so exact rational arithmetic
matches the float dataflow's NaN/defined structure; the one place where the
source deliberately exploits IEEE semantics (the RSI's `avg_gain / avg_loss`
with `avg_loss == 0` giving `inf`, and `100 - 100/(1+inf) == 100`) is
embedded explicitly in `rsi_col`.

The sklearn `RandomForestClassifier` is an external library component: it is
embedded as an opaque training function `Fit` producing a `Model` that
assigns each feature row a probability of class 1 (`predict_proba(x)[1]`),
with `predict` being the documented argmax of `predict_proba` (ties broken
toward the first class, class 0). Everything downstream of the classifier is
translated line by line from the source.
-/

namespace MarketSync

/-- Calendar attributes of one trading day, as read off the pandas
`DatetimeIndex`: a strictly increasing serial day number, `index.dayofweek`
and `index.is_month_end`.  The pipeline only ever consumes these derived
attributes of a date, so they are carried as fields. -/
structure Date where
  serial : Nat
  weekday : Nat
  isMonthEnd : Bool
  deriving DecidableEq, Repr

/-- Feature vector of one row of `data[feature_cols]`
(`ai_service.py` lines 40–45): the ten feature columns, in source order. -/
structure FeatureVec where
  spChg : ℚ
  usdChg : ℚ
  ma5 : ℚ
  vol : ℚ
  rsi : ℚ
  weekday : Nat
  isMonthEnd : Bool
  lag1 : ℚ
  lag2 : ℚ
  lag3 : ℚ
  deriving DecidableEq, Repr

/-- One surviving row of `add_technical_indicators(df).dropna()`: the
original three price columns plus the derived feature columns (all defined,
since rows with any NaN have been dropped). -/
structure Row where
  date : Date
  sp : ℚ
  usd : ℚ
  tpx : ℚ
  f : FeatureVec
  deriving DecidableEq, Repr

/-- Embedding of a fitted `RandomForestClassifier`: `proba1 x` is
`predict_proba(x)[1]`, the probability assigned to class 1, and
`importances` is `feature_importances_`.  `predict_proba(x)[0]` is
`1 - proba1 x` (sklearn rows of `predict_proba` sum to 1). -/
structure Model where
  proba1 : FeatureVec → ℚ
  importances : List ℚ

/-- Training procedure abstraction: `RandomForestClassifier(n_estimators=100,
min_samples_split=5, random_state=42).fit` is deterministic given the fixed
seed, hence a pure function of the (features, labels) pairs it is given. -/
abbrev Fit := List FeatureVec → List Bool → Model

/-- Result dictionary of `train_and_predict` (`ai_service.py` lines 78–84).
`prediction` is `true` for class 1 ("上昇"/up). The `latest_input` entry is
omitted: it is a echo of the feature row, unexamined by any claim. -/
structure PredResult where
  prediction : Bool
  probability : ℚ
  accuracy : ℚ
  importance : List ℚ

/-- One row of the `results_df` returned by `run_backtest`
(`ai_service.py` lines 127–132): date, strategy asset ("AI戦略"),
buy-and-hold asset ("TOPIXガチホ"), and the day's position. Asset cells are
`Option ℚ` because float NaN would propagate through the simulation. -/
structure Record where
  date : Date
  strategy : Option ℚ
  market : Option ℚ
  position : Nat
  deriving DecidableEq, Repr

/-- Turns a list of optional cells into `some` of the list of values exactly
when every cell is defined (used to embed a rolling window that pandas
evaluates only when all of its cells are non-NaN). -/
def sequenceO : List (Option α) → Option (List α)
  | [] => some []
  | none :: _ => none
  | some x :: t => (sequenceO t).map (fun l => x :: l)

/-- Embedding of `Series.pct_change()`: cell 0 is NaN, cell `i` is
`(x_i - x_(i-1)) / x_(i-1)`.  Faithful for series of nonzero (in this
pipeline: strictly positive) values, where the division is exact. -/
def pct_change (xs : List ℚ) : List (Option ℚ) :=
  (List.range xs.length).map (fun i =>
    if i = 0 then none
    else some ((xs.getD i 0 - xs.getD (i - 1) 0) / xs.getD (i - 1) 0))

/-- Embedding of `Series.diff()`: cell 0 is NaN, cell `i` is
`x_i - x_(i-1)` (`ai_service.py` line 18). -/
def diff_col (xs : List ℚ) : List (Option ℚ) :=
  (List.range xs.length).map (fun i =>
    if i = 0 then none
    else some (xs.getD i 0 - xs.getD (i - 1) 0))

/-- Embedding of `Series.shift(k)` for `k ≥ 0`: the first `k` cells are NaN,
cell `i` is cell `i - k` of the input. -/
def shift_pos (k : Nat) (xs : List (Option ℚ)) : List (Option ℚ) :=
  (List.range xs.length).map (fun i =>
    if i < k then none else xs.getD (i - k) none)

/-- Embedding of `Series.shift(-1)`: cell `i` is cell `i + 1` of the input,
the last cell is NaN (`ai_service.py` lines 48 and 106). -/
def shift_neg1 (xs : List (Option ℚ)) : List (Option ℚ) :=
  (List.range xs.length).map (fun i => xs.getD (i + 1) none)

/-- Embedding of `Series.rolling(window=n).mean()` with the default
`min_periods = n`: cell `i` is defined iff the trailing window of `n` cells
ending at `i` exists and is entirely non-NaN, and is then its mean. -/
def rolling_mean (n : Nat) (xs : List (Option ℚ)) : List (Option ℚ) :=
  (List.range xs.length).map (fun i =>
    if i + 1 < n then none
    else (sequenceO ((xs.drop (i + 1 - n)).take n)).map (fun w => w.sum / (n : ℚ)))

/-- Embedding of `Series.rolling(window=n).std()` with the same definedness
as `rolling_mean`.  The carried value is the sample variance (the source's
std is its square root, which ℚ cannot represent); the cell is NaN exactly
where the source's is, and no theorem below inspects the value (the feature
only flows into the opaque classifier). -/
def rolling_var (n : Nat) (xs : List (Option ℚ)) : List (Option ℚ) :=
  (List.range xs.length).map (fun i =>
    if i + 1 < n then none
    else (sequenceO ((xs.drop (i + 1 - n)).take n)).map (fun w =>
      ((w.map (fun x => (x - w.sum / (n : ℚ)) * (x - w.sum / (n : ℚ)))).sum) / ((n : ℚ) - 1)))

/-- Column `S&P500_MA5 = data["S&P500"] / data["S&P500"].rolling(5).mean() - 1`
(`ai_service.py` line 14). -/
def ma5_col (sp : List ℚ) : List (Option ℚ) :=
  (List.range sp.length).map (fun i =>
    ((rolling_mean 5 (sp.map some)).getD i none).map (fun m => sp.getD i 0 / m - 1))

/-- Column `Volatility = data["TOPIX(ETF)"].pct_change().rolling(5).std()`
(`ai_service.py` line 15). -/
def vol_col (tpx : List ℚ) : List (Option ℚ) :=
  rolling_var 5 (pct_change tpx)

/-- Column `RSI` (`ai_service.py` lines 18–24):
`diff` is clipped into gains `up` and losses `down`, both averaged over a
14-day rolling window; `rs = avg_gain / avg_loss` and
`RSI = 100 - 100 / (1 + rs)`.  The float division encodes the zero-loss edge
case: `avg_loss == 0` with `avg_gain > 0` gives `rs = inf`, and
`100 - 100/(1 + inf) = 100` (the saturating value); `0/0` gives NaN, so a
fully flat window yields a NaN cell that `dropna` later removes. -/
def rsi_col (tpx : List ℚ) : List (Option ℚ) :=
  (List.range tpx.length).map (fun i =>
    match (rolling_mean 14 ((diff_col tpx).map (Option.map (fun d => max d 0)))).getD i none,
          (rolling_mean 14 ((diff_col tpx).map (Option.map (fun d => max (-d) 0)))).getD i none with
    | some g, some l =>
        if l = 0 then (if g = 0 then none else some 100)
        else some (100 - 100 / (1 + g / l))
    | _, _ => none)

/-- Row `i` of `add_technical_indicators(df)` before `dropna()`: defined (kept
by `dropna`) exactly when every feature cell of that row is non-NaN.  The
calendar columns `Weekday` and `Is_Month_End` (lines 27–28) come from the
index and are always defined. -/
def rowAt (dates : List Date) (sp usd tpx : List ℚ) (i : Nat) : Option Row :=
  (dates[i]?).bind fun d =>
  (sp[i]?).bind fun sv =>
  (usd[i]?).bind fun uv =>
  (tpx[i]?).bind fun tv =>
  ((pct_change sp).getD i none).bind fun c1 =>
  ((pct_change usd).getD i none).bind fun c2 =>
  ((ma5_col sp).getD i none).bind fun m5 =>
  ((vol_col tpx).getD i none).bind fun vl =>
  ((rsi_col tpx).getD i none).bind fun ri =>
  ((shift_pos 1 (pct_change sp)).getD i none).bind fun l1 =>
  ((shift_pos 2 (pct_change sp)).getD i none).bind fun l2 =>
  ((shift_pos 3 (pct_change sp)).getD i none).bind fun l3 =>
  some ⟨d, sv, uv, tv, ⟨c1, c2, m5, vl, ri, d.weekday, d.isMonthEnd, l1, l2, l3⟩⟩

/-- Embedding of `add_technical_indicators` (`ai_service.py` lines 6–35):
builds every derived column and then `dropna()`, keeping exactly the rows
whose cells are all defined.  The input table is given as its three price
columns plus the date index. -/
def add_technical_indicators (dates : List Date) (sp usd tpx : List ℚ) : List Row :=
  (List.range dates.length).filterMap (rowAt dates sp usd tpx)

/-- Return value of `get_features_and_target` (`ai_service.py` line 58):
the post-dropna frame `data`, the index of `X` (as positions into `data`),
and the aligned `X` and `y`.  (`feature_cols`, a constant list of column
names, is omitted.) -/
structure FT where
  data : List Row
  Xidx : List Nat
  X : List FeatureVec
  y : List Bool

/-- Body of `get_features_and_target` downstream of the indicator frame
(`ai_service.py` lines 48–58), as a function of the post-dropna frame `data`:
`target_returns = data["TOPIX(ETF)"].pct_change().shift(-1)`;
`y = (target_returns > 0).astype(int)` (NaN > 0 is False, giving label 0;
labels are carried as `Bool` with `true ↔ 1`);
`valid_indices = X.index ∩ y.index ∩ target_returns.dropna().index` — since
`X` and `y` both live on `data`'s full index, this is exactly the set of
positions where `target_returns` is non-NaN, in index order; finally both
`X` and `y` lose their last row via `iloc[:-1]`. -/
def ft_of_data (data : List Row) : FT :=
  let target := shift_neg1 (pct_change (data.map (·.tpx)))
  let yAll : List Bool := target.map (fun o => match o with
    | some r => decide (0 < r)
    | none => false)
  let valid := (List.range data.length).filter (fun i => (target.getD i none).isSome)
  let Xv := valid.filterMap (fun i => (data[i]?).map (·.f))
  let yv := valid.filterMap (fun i => yAll[i]?)
  ⟨data, valid.dropLast, Xv.dropLast, yv.dropLast⟩

/-- Embedding of `get_features_and_target` (`ai_service.py` lines 37–58). -/
def get_features_and_target (dates : List Date) (sp usd tpx : List ℚ) : FT :=
  ft_of_data (add_technical_indicators dates sp usd tpx)

/-- Line 103 of `ai_service.py`: `predictions = (probs >= threshold).astype(int)`. -/
def to_positions (threshold : ℚ) (probs : List ℚ) : List Nat :=
  probs.map (fun p => if threshold ≤ p then 1 else 0)

/-- Row of `predict_proba` for one feature row: `(P(class 0), P(class 1))`. -/
def proba_pair (m : Model) (x : FeatureVec) : ℚ × ℚ :=
  (1 - m.proba1 x, m.proba1 x)

/-- Embedding of `model.predict` for the fitted binary classifier: the argmax
of `predict_proba` over the class order `[0, 1]`, ties broken toward the
first class (numpy `argmax` returns the first maximal index). `true` is
class 1. -/
def predict_cls (m : Model) (x : FeatureVec) : Bool :=
  decide ((proba_pair m x).1 < (proba_pair m x).2)

/-- Embedding of `model.score(X, y)` (`accuracy_score`): fraction of rows
whose predicted class matches the label. -/
def score_model (m : Model) (X : List FeatureVec) (y : List Bool) : ℚ :=
  ((List.zipWith (fun x b => decide (predict_cls m x = b)) X y).count true : ℚ) / (X.length : ℚ)

/-- Embedding of `train_and_predict` (`ai_service.py` lines 60–84).  The
model is fit on all of `X, y`; `latest_features` is the last row of the
recomputed indicator frame (`iloc[[-1]]`, which raises on an empty frame —
embedded as `none`); `prediction = model.predict(latest)[0]`,
`probs = model.predict_proba(latest)[0]` and `confidence = probs[prediction]`. -/
def train_and_predict (fit : Fit) (dates : List Date) (sp usd tpx : List ℚ) :
    Option PredResult :=
  let ft := get_features_and_target dates sp usd tpx
  let model := fit ft.X ft.y
  let accuracy := score_model model ft.X ft.y
  ((add_technical_indicators dates sp usd tpx).getLast?).map (fun lr =>
    let pred := predict_cls model lr.f
    let conf := if pred then (proba_pair model lr.f).2 else (proba_pair model lr.f).1
    ⟨pred, conf, accuracy, model.importances⟩)

/-- Line 91 of `ai_service.py`: `split_point = int(len(X) * 0.8)`.  For every
realistic length the float expression `int(n * 0.8)` equals `⌊4n/5⌋`: the
double nearest 0.8 exceeds 4/5 by less than a quarter ulp, so the rounded
product of an integer with it never falls below, nor reaches the next
integer above, the exact value 4n/5. -/
def split_point (ft : FT) : Nat := 4 * ft.X.length / 5

/-- Lines 92–97 of `ai_service.py`: the classifier is fit on
`X.iloc[:split_point]`, `y.iloc[:split_point]` only. -/
def backtest_model (fit : Fit) (ft : FT) : Model :=
  fit (ft.X.take (split_point ft)) (ft.y.take (split_point ft))

/-- Line 102 of `ai_service.py`: `probs = model.predict_proba(X)[:, 1]`,
evaluated over the full feature frame. -/
def backtest_probs (fit : Fit) (ft : FT) : List ℚ :=
  ft.X.map (backtest_model fit ft).proba1

/-- Line 106 of `ai_service.py`:
`returns_col = data["TOPIX(ETF)"].pct_change().shift(-1)`. -/
def returns_col (data : List Row) : List (Option ℚ) :=
  shift_neg1 (pct_change (data.map (·.tpx)))

/-- Line 107 of `ai_service.py`: `actual_returns = returns_col.loc[X.index]` —
the returns column restricted to the index of `X` (cells may a priori be
NaN, hence `Option ℚ`). -/
def actual_returns (ft : FT) : List (Option ℚ) :=
  ft.Xidx.filterMap (fun i => (returns_col ft.data)[i]?)

/-- NaN-propagating float addition: the sum of two cells, NaN if either is. -/
def oadd (a b : Option ℚ) : Option ℚ := do pure ((← a) + (← b))

/-- NaN-propagating float multiplication. -/
def omul (a b : Option ℚ) : Option ℚ := do pure ((← a) * (← b))

/-- Simulation loop of `run_backtest` (`ai_service.py` lines 110–125): walks
`zip(predictions, actual_returns)` carrying `current_strategy` and
`current_market` (both seeded with 1.0 by the caller), appending the day's
position and the two updated multipliers; returns the appended lists
(`strategy_assets[1:]`, `market_assets[1:]`) and the final multipliers. -/
def simulate : List (Nat × Option ℚ) → Option ℚ → Option ℚ →
    List Nat × List (Option ℚ) × List (Option ℚ) × Option ℚ × Option ℚ
  | [], cs, cm => ([], [], [], cs, cm)
  | (pred, ret) :: rest, cs, cm =>
    let cs' := if pred = 1 then omul cs (oadd (some 1) ret) else omul cs (some 1)
    let cm' := omul cm (oadd (some 1) ret)
    let out := simulate rest cs' cm'
    (pred :: out.1, cs' :: out.2.1, cm' :: out.2.2.1, out.2.2.2.1, out.2.2.2.2)

/-- Assembly of `results_df` (`ai_service.py` lines 127–132) from its four
equal-length columns (pandas would reject unequal lengths; the zip-style
recursion totalizes that, and the length theorems below show the columns do
agree). -/
def mkRecords : List Date → List (Option ℚ) → List (Option ℚ) → List Nat → List Record
  | d :: ds, s :: ss, m :: ms, p :: ps => ⟨d, s, m, p⟩ :: mkRecords ds ss ms ps
  | _, _, _, _ => []

/-- Embedding of `run_backtest` (`ai_service.py` lines 86–137): returns
`results_df` together with `final_return_ai = (current_strategy - 1) * 100`
and `final_return_market = (current_market - 1) * 100`. -/
def run_backtest (fit : Fit) (threshold : ℚ) (dates : List Date) (sp usd tpx : List ℚ) :
    List Record × Option ℚ × Option ℚ :=
  let ft := get_features_and_target dates sp usd tpx
  let predictions := to_positions threshold (backtest_probs fit ft)
  let out := simulate (predictions.zip (actual_returns ft)) (some 1) (some 1)
  let recDates := ft.Xidx.filterMap (fun i => (ft.data[i]?).map (·.date))
  (mkRecords recDates out.2.1 out.2.2.1 out.1,
   out.2.2.2.1.map (fun c => (c - 1) * 100),
   out.2.2.2.2.map (fun c => (c - 1) * 100))

/-- Raw price table as delivered by `load_market_data`
(`data_service.py` lines 6–52): the USDJPY column is optional, because the
rename at lines 30–34 only maps tickers that were actually downloaded. -/
structure RawTable where
  dates : List Date
  sp500 : List ℚ
  topix : List ℚ
  usdjpy : Option (List ℚ)

/-- Table-level entry to the indicator builder: `add_technical_indicators`
reads `data["USDJPY"]` unconditionally at `ai_service.py` line 11, so a
table lacking that column raises `KeyError` — embedded as `none`. -/
def add_technical_indicators_table (t : RawTable) : Option (List Row) :=
  match t.usdjpy with
  | none => none
  | some u => some (add_technical_indicators t.dates t.sp500 u t.topix)

/-- Table-level entry to `run_backtest`: the `KeyError` raised on a missing
USDJPY column aborts the whole run (caught only by the top-level handler in
`main.py` line 178). -/
def run_backtest_table (fit : Fit) (threshold : ℚ) (t : RawTable) :
    Option (List Record × Option ℚ × Option ℚ) :=
  match t.usdjpy with
  | none => none
  | some u => some (run_backtest fit threshold t.dates t.sp500 u t.topix)

/-- Embedding of `res_df["Position"].diff()` (`main.py` lines 121–123): the
first cell is NaN, cell `i` is the integer difference of consecutive
positions. -/
def pos_diff (ps : List Nat) : List (Option Int) :=
  (List.range ps.length).map (fun i =>
    if i = 0 then none
    else some ((ps.getD i 0 : Int) - (ps.getD (i - 1) 0 : Int)))

/-- Line 121 of `main.py`: `buy_signals = res_df[res_df["Position"].diff() == 1]`,
as the list of row positions selected (a NaN cell compares unequal to 1). -/
def buy_signals (ps : List Nat) : List Nat :=
  (List.range ps.length).filter (fun i => (pos_diff ps).getD i none = some 1)

/-- Line 123 of `main.py`: `sell_signals = res_df[res_df["Position"].diff() == -1]`. -/
def sell_signals (ps : List Nat) : List Nat :=
  (List.range ps.length).filter (fun i => (pos_diff ps).getD i none = some (-1))

/-! Concrete inputs used by the witness theorems: `n` consecutive trading
days with strictly increasing prices `1, 2, …, n` on every instrument, and a
constant-probability classifier. -/

/-- Demo date index: serial days `0, …, n-1`. -/
def demoDates (n : Nat) : List Date := (List.range n).map (fun i => ⟨i, i % 7, false⟩)

/-- Demo price column: strictly increasing values `1, …, n`. -/
def demoVals (n : Nat) : List ℚ := (List.range n).map (fun i => (i + 1 : ℚ))

/-- Classifier stub that always reports probability 1/2 for class 1. -/
def constFit : Fit := fun _ _ => ⟨fun _ => 1/2, []⟩

/-- Default `Date` used with `List.getD`. -/
def date0 : Date := ⟨0, 0, false⟩

/-- Default `Row` used with `List.getD`. -/
def row0 : Row := ⟨date0, 0, 0, 0, ⟨0, 0, 0, 0, 0, 0, false, 0, 0, 0⟩⟩

/-- Default `Record` used with `List.getD`. -/
def record0 : Record := ⟨date0, none, none, 0⟩

/-- Row `i` of the indicator frame, as a total function (used only to state
and prove the characterization of `add_technical_indicators`; payloads are
extracted with defaults, and `rowAt_eq_some` shows they agree with the
partial computation wherever that is defined). -/
def mkRow (dates : List Date) (sp usd tpx : List ℚ) (i : Nat) : Row :=
  ⟨dates.getD i date0, sp.getD i 0, usd.getD i 0, tpx.getD i 0,
   ⟨((pct_change sp).getD i none).getD 0, ((pct_change usd).getD i none).getD 0,
    ((ma5_col sp).getD i none).getD 0, ((vol_col tpx).getD i none).getD 0,
    ((rsi_col tpx).getD i none).getD 0, (dates.getD i date0).weekday,
    (dates.getD i date0).isMonthEnd, ((shift_pos 1 (pct_change sp)).getD i none).getD 0,
    ((shift_pos 2 (pct_change sp)).getD i none).getD 0,
    ((shift_pos 3 (pct_change sp)).getD i none).getD 0⟩⟩

/-- Realized next-day return of frame row `i`
(cell `i` of `returns_col`, when defined). -/
def realized_ret (data : List Row) (i : Nat) : ℚ :=
  ((data.map (·.tpx)).getD (i + 1) 0 - (data.map (·.tpx)).getD i 0) /
    (data.map (·.tpx)).getD i 0

/-- Day-over-day difference of the domestic series at position `j` (cell `j`
of `diff`, `ai_service.py` line 18), as a total function of the position. -/
def tdiff (tpx : List ℚ) (j : Nat) : ℚ := tpx.getD j 0 - tpx.getD (j - 1) 0

/-- Average gain over the 14-day RSI window ending at position `i`
(cell `i` of `avg_gain`, `ai_service.py` line 21), as a total function. -/
def avg_gain (tpx : List ℚ) (i : Nat) : ℚ :=
  ((List.range' (i - 13) 14).map (fun j => max (tdiff tpx j) 0)).sum / ((14 : Nat) : ℚ)

/-- Average loss over the 14-day RSI window ending at position `i`
(cell `i` of `avg_loss`, `ai_service.py` line 22), as a total function. -/
def avg_loss (tpx : List ℚ) (i : Nat) : ℚ :=
  ((List.range' (i - 13) 14).map (fun j => max (-tdiff tpx j) 0)).sum / ((14 : Nat) : ℚ)

/-- Value sequence of `actual_returns` (statement vocabulary: the realized
next-day returns the simulation consumes, one per feature row). -/
def retSeq (data : List Row) : List ℚ :=
  (List.range (data.length - 2)).map (realized_ret data)

/-- Position sequence computed by `run_backtest` at threshold `θ` over the
frame `data` (statement vocabulary). -/
def predSeq (fit : Fit) (θ : ℚ) (data : List Row) : List Nat :=
  to_positions θ (backtest_probs fit (ft_of_data data))

/-- Strategy multiplier after the first `k` simulated days: the product of
`(1 + return)` over the invested days among the first `k`, and of `1` over
the flat days (statement vocabulary). -/
def stratProd (fit : Fit) (θ : ℚ) (data : List Row) (k : Nat) : ℚ :=
  ((((predSeq fit θ data).zip (retSeq data)).take k).map
    (fun pr => if pr.1 = 1 then 1 + pr.2 else 1)).prod

/-- Buy-and-hold multiplier after the first `k` simulated days: the product
of `(1 + return)` over the first `k` days (statement vocabulary). -/
def mktProd (data : List Row) (k : Nat) : ℚ :=
  (((retSeq data).take k).map (fun r => 1 + r)).prod

/-! Generic list helpers. -/

theorem getD_idxMap (f : Nat → α) (n i : Nat) (d : α) (hi : i < n) :
    ((List.range n).map f).getD i d = f i := by
  rw [List.getD_eq_getElem?_getD, List.getElem?_map, List.getElem?_range hi]
  rfl

theorem getD_idxMap_ge (f : Nat → α) (n i : Nat) (d : α) (hi : n ≤ i) :
    ((List.range n).map f).getD i d = d := by
  rw [List.getD_eq_getElem?_getD, List.getElem?_map]
  rw [List.getElem?_eq_none (by simpa using hi)]
  rfl

theorem isSome_eq_someD (o : Option α) (d : α) (h : o.isSome) : o = some (o.getD d) := by
  cases o with
  | none => simp at h
  | some v => rfl

theorem sequenceO_isSome_iff (l : List (Option α)) :
    (sequenceO l).isSome ↔ ∀ x ∈ l, x.isSome := by
  induction l with
  | nil => simp [sequenceO]
  | cons h t ih =>
    cases h with
    | none => simp [sequenceO]
    | some v => simpa [sequenceO] using ih

theorem sequenceO_map_some (l : List α) : sequenceO (l.map some) = some l := by
  induction l with
  | nil => rfl
  | cons h t ih => simp [sequenceO, ih]

theorem filterMap_eq_map_of (l : List α) (f : α → Option β) (g : α → β)
    (h : ∀ a ∈ l, f a = some (g a)) : l.filterMap f = l.map g := by
  induction l with
  | nil => rfl
  | cons x t ih =>
    rw [List.filterMap_cons, h x (by simp), List.map_cons,
      ih (fun a ha => h a (by simp [ha]))]

theorem drop_eq_map_getD (l : List α) (a : Nat) (d : α) :
    l.drop a = (List.range' a (l.length - a)).map (fun i => l.getD i d) := by
  apply List.ext_getElem
  · simp
  · intro i h1 h2
    rw [List.length_drop] at h1
    simp only [List.getElem_drop, List.getElem_map, List.getElem_range', one_mul,
      Nat.one_mul]
    rw [List.getD_eq_getElem?_getD, List.getElem?_eq_getElem (by omega)]
    rfl

theorem range_filter_succ_lt (m : Nat) :
    (List.range m).filter (fun i => decide (i + 1 < m)) = List.range (m - 1) := by
  cases m with
  | zero => rfl
  | succ k =>
    rw [List.range_succ, List.filter_append]
    have h1 : (List.range k).filter (fun i => decide (i + 1 < k + 1)) = List.range k := by
      rw [List.filter_eq_self]
      intro a ha
      simpa using (by simpa using List.mem_range.mp ha)
    simp [h1]

theorem range_dropLast (k : Nat) : (List.range k).dropLast = List.range (k - 1) := by
  cases k with
  | zero => rfl
  | succ n => rw [List.range_succ, List.dropLast_concat]; rfl

theorem dropLast_map_range (g : Nat → α) (k : Nat) :
    ((List.range k).map g).dropLast = (List.range (k - 1)).map g := by
  cases k with
  | zero => rfl
  | succ n => simp [List.range_succ]

theorem mem_range'_iff (s n m : Nat) : m ∈ List.range' s n ↔ s ≤ m ∧ m < s + n := by
  rw [List.mem_range']
  constructor
  · rintro ⟨i, hi, rfl⟩
    omega
  · intro h
    exact ⟨m - s, by omega, by omega⟩

theorem getElem?_eq_someD (l : List α) (i : Nat) (d : α) (h : i < l.length) :
    l[i]? = some (l.getD i d) := by
  rw [List.getElem?_eq_getElem h, List.getD_eq_getElem?_getD, List.getElem?_eq_getElem h]
  rfl

theorem getD_map_opt (l : List (Option ℚ)) (f : ℚ → ℚ) (j : Nat) (hj : j < l.length) :
    (l.map (Option.map f)).getD j none = Option.map f (l.getD j none) := by
  rw [List.getD_eq_getElem?_getD, List.getElem?_map, List.getElem?_eq_getElem hj,
    List.getD_eq_getElem?_getD, List.getElem?_eq_getElem hj]
  rfl

theorem getD_map_some (sp : List ℚ) (j : Nat) (hj : j < sp.length) :
    (sp.map some).getD j none = some (sp.getD j 0) := by
  rw [List.getD_eq_getElem?_getD, List.getElem?_map, List.getElem?_eq_getElem hj,
    List.getD_eq_getElem?_getD, List.getElem?_eq_getElem hj]
  rfl

theorem sum_eq_zero_of_nonneg {l : List ℚ} (h : ∀ x ∈ l, 0 ≤ x) (hs : l.sum = 0) :
    ∀ x ∈ l, x = 0 := by
  induction l with
  | nil => simp
  | cons a t ih =>
    have hta : 0 ≤ a := h a (by simp)
    have htt : 0 ≤ t.sum := List.sum_nonneg (fun x hx => h x (by simp [hx]))
    have hsum : a + t.sum = 0 := by simpa using hs
    have ha0 : a = 0 := by linarith
    have ht0 : t.sum = 0 := by linarith
    intro x hx
    rcases List.mem_cons.mp hx with rfl | hxt
    · exact ha0
    · exact ih (fun z hz => h z (by simp [hz])) ht0 x hxt

/-! Cell-level characterizations of the embedded pandas columns. -/

theorem pct_change_some (xs : List ℚ) (i : Nat) (h1 : 1 ≤ i) (hi : i < xs.length) :
    (pct_change xs).getD i none =
      some ((xs.getD i 0 - xs.getD (i - 1) 0) / xs.getD (i - 1) 0) := by
  unfold pct_change
  rw [getD_idxMap _ _ _ _ hi, if_neg (by omega)]

theorem pct_change_zero (xs : List ℚ) (h : 0 < xs.length) :
    (pct_change xs).getD 0 none = none := by
  unfold pct_change
  rw [getD_idxMap _ _ _ _ h, if_pos rfl]

theorem length_pct_change (xs : List ℚ) : (pct_change xs).length = xs.length := by
  simp [pct_change]

theorem diff_col_some (xs : List ℚ) (j : Nat) (h1 : 1 ≤ j) (hj : j < xs.length) :
    (diff_col xs).getD j none = some (xs.getD j 0 - xs.getD (j - 1) 0) := by
  unfold diff_col
  rw [getD_idxMap _ _ _ _ hj, if_neg (by omega)]

theorem shift_pos_getD (k : Nat) (xs : List (Option ℚ)) (i : Nat) (hi : i < xs.length) :
    (shift_pos k xs).getD i none = if i < k then none else xs.getD (i - k) none := by
  unfold shift_pos
  rw [getD_idxMap _ _ _ _ hi]

theorem shift_neg1_getD (xs : List (Option ℚ)) (i : Nat) (hi : i < xs.length) :
    (shift_neg1 xs).getD i none = xs.getD (i + 1) none := by
  unfold shift_neg1
  rw [getD_idxMap _ _ _ _ hi]

theorem length_shift_neg1 (xs : List (Option ℚ)) : (shift_neg1 xs).length = xs.length := by
  simp [shift_neg1]

theorem window_eq (xs : List (Option ℚ)) (i n : Nat) (hn : n ≤ i + 1) (hi : i < xs.length) :
    (xs.drop (i + 1 - n)).take n =
      (List.range' (i + 1 - n) n).map (fun j => xs.getD j none) := by
  apply List.ext_getElem?
  intro k
  by_cases hk : k < n
  · have hlt : i + 1 - n + k < xs.length := by omega
    rw [List.getElem?_take_of_lt hk, List.getElem?_drop, List.getElem?_map]
    rw [List.getElem?_eq_getElem hlt]
    rw [List.getElem?_eq_getElem (show k < (List.range' (i + 1 - n) n).length by simpa using hk)]
    simp only [List.getElem_range', one_mul, Nat.one_mul, Option.map_some', Option.some.injEq,
      List.getD_eq_getElem?_getD, List.getElem?_eq_getElem hlt, Option.getD_some]
  · have h1 : ((xs.drop (i + 1 - n)).take n).length ≤ k := by
      simp only [List.length_take, List.length_drop]
      omega
    have h2 : ((List.range' (i + 1 - n) n).map (fun j => xs.getD j none)).length ≤ k := by
      simp only [List.length_map, List.length_range']
      omega
    rw [List.getElem?_eq_none h1, List.getElem?_eq_none h2]

theorem rolling_mean_getD (n : Nat) (xs : List (Option ℚ)) (i : Nat)
    (hn : n ≤ i + 1) (hi : i < xs.length) :
    (rolling_mean n xs).getD i none =
      (sequenceO ((List.range' (i + 1 - n) n).map (fun j => xs.getD j none))).map
        (fun w => w.sum / (n : ℚ)) := by
  unfold rolling_mean
  rw [getD_idxMap _ _ _ _ hi, if_neg (by omega), window_eq xs i n hn hi]

theorem rolling_mean_getD_lt (n : Nat) (xs : List (Option ℚ)) (i : Nat)
    (hn : i + 1 < n) (hi : i < xs.length) :
    (rolling_mean n xs).getD i none = none := by
  unfold rolling_mean
  rw [getD_idxMap _ _ _ _ hi, if_pos hn]

theorem rolling_var_getD (n : Nat) (xs : List (Option ℚ)) (i : Nat)
    (hn : n ≤ i + 1) (hi : i < xs.length) :
    (rolling_var n xs).getD i none =
      (sequenceO ((List.range' (i + 1 - n) n).map (fun j => xs.getD j none))).map
        (fun w => ((w.map (fun x => (x - w.sum / (n : ℚ)) * (x - w.sum / (n : ℚ)))).sum) /
          ((n : ℚ) - 1)) := by
  unfold rolling_var
  rw [getD_idxMap _ _ _ _ hi, if_neg (by omega), window_eq xs i n hn hi]

theorem rolling_isSome_aux (xs : List (Option ℚ)) (i n : Nat)
    (hcells : ∀ j, i + 1 - n ≤ j → j ≤ i → (xs.getD j none).isSome) (hn : n ≤ i + 1) :
    (sequenceO ((List.range' (i + 1 - n) n).map (fun j => xs.getD j none))).isSome := by
  rw [sequenceO_isSome_iff]
  intro x hx
  obtain ⟨j, hj, rfl⟩ := List.mem_map.mp hx
  have hb := (mem_range'_iff _ _ _).mp hj
  exact hcells j (by omega) (by omega)

theorem ma5_isSome (sp : List ℚ) (i : Nat) (h4 : 4 ≤ i) (hi : i < sp.length) :
    ((ma5_col sp).getD i none).isSome := by
  unfold ma5_col
  rw [getD_idxMap _ _ _ _ hi]
  rw [Option.isSome_map']
  rw [rolling_mean_getD 5 _ i (by omega) (by simpa using hi)]
  rw [Option.isSome_map']
  apply rolling_isSome_aux
  · intro j _ hj2
    rw [getD_map_some sp j (by omega)]
    rfl
  · omega

theorem vol_isSome (tpx : List ℚ) (i : Nat) (h5 : 5 ≤ i) (hi : i < tpx.length) :
    ((vol_col tpx).getD i none).isSome := by
  unfold vol_col
  rw [rolling_var_getD 5 _ i (by omega) (by rw [length_pct_change]; exact hi)]
  rw [Option.isSome_map']
  apply rolling_isSome_aux
  · intro j hj1 hj2
    rw [pct_change_some tpx j (by omega) (by omega)]
    rfl
  · omega

theorem shift_pct_some (sp : List ℚ) (k i : Nat) (hk : k < i) (hi : i < sp.length) :
    ((shift_pos k (pct_change sp)).getD i none).isSome := by
  rw [shift_pos_getD k _ i (by rw [length_pct_change]; exact hi), if_neg (by omega)]
  rw [pct_change_some sp (i - k) (by omega) (by omega)]
  rfl

theorem length_diff_map (tpx : List ℚ) (f : ℚ → ℚ) :
    ((diff_col tpx).map (Option.map f)).length = tpx.length := by
  simp [diff_col]

theorem rsi_window_gain (tpx : List ℚ) (i : Nat) (h14 : 14 ≤ i) (hi : i < tpx.length) :
    (rolling_mean 14 ((diff_col tpx).map (Option.map (fun d => max d 0)))).getD i none
      = some (avg_gain tpx i) := by
  rw [rolling_mean_getD 14 _ i (by omega) (by rw [length_diff_map]; exact hi)]
  have hw : (List.range' (i + 1 - 14) 14).map
      (fun j => ((diff_col tpx).map (Option.map (fun d => max d 0))).getD j none)
      = ((List.range' (i - 13) 14).map (fun j => max (tdiff tpx j) 0)).map some := by
    rw [List.map_map]
    have h1 : i + 1 - 14 = i - 13 := by omega
    rw [h1]
    apply List.map_congr_left
    intro j hj
    have hb := (mem_range'_iff _ _ _).mp hj
    simp only [Function.comp_apply]
    rw [getD_map_opt _ _ j (by simp [diff_col]; omega),
      diff_col_some tpx j (by omega) (by omega)]
    rfl
  rw [hw, sequenceO_map_some]
  rfl

theorem rsi_window_loss (tpx : List ℚ) (i : Nat) (h14 : 14 ≤ i) (hi : i < tpx.length) :
    (rolling_mean 14 ((diff_col tpx).map (Option.map (fun d => max (-d) 0)))).getD i none
      = some (avg_loss tpx i) := by
  rw [rolling_mean_getD 14 _ i (by omega) (by rw [length_diff_map]; exact hi)]
  have hw : (List.range' (i + 1 - 14) 14).map
      (fun j => ((diff_col tpx).map (Option.map (fun d => max (-d) 0))).getD j none)
      = ((List.range' (i - 13) 14).map (fun j => max (-tdiff tpx j) 0)).map some := by
    rw [List.map_map]
    have h1 : i + 1 - 14 = i - 13 := by omega
    rw [h1]
    apply List.map_congr_left
    intro j hj
    have hb := (mem_range'_iff _ _ _).mp hj
    simp only [Function.comp_apply]
    rw [getD_map_opt _ _ j (by simp [diff_col]; omega),
      diff_col_some tpx j (by omega) (by omega)]
    rfl
  rw [hw, sequenceO_map_some]
  rfl

theorem rsi_getD_eq (tpx : List ℚ) (i : Nat) (h14 : 14 ≤ i) (hi : i < tpx.length) :
    (rsi_col tpx).getD i none =
      if avg_loss tpx i = 0 then (if avg_gain tpx i = 0 then none else some 100)
      else some (100 - 100 / (1 + avg_gain tpx i / avg_loss tpx i)) := by
  unfold rsi_col
  rw [getD_idxMap _ _ _ _ hi]
  rw [rsi_window_gain tpx i h14 hi, rsi_window_loss tpx i h14 hi]

theorem rsi_none_lt14 (tpx : List ℚ) (i : Nat) (h14 : i < 14) (hi : i < tpx.length) :
    (rsi_col tpx).getD i none = none := by
  unfold rsi_col
  rw [getD_idxMap _ _ _ _ hi]
  rcases Nat.lt_or_ge (i + 1) 14 with hlt | hge
  · rw [rolling_mean_getD_lt 14 _ i hlt (by rw [length_diff_map]; exact hi)]
  · have hi13 : i = 13 := by omega
    subst hi13
    rw [rolling_mean_getD 14 _ 13 (by omega) (by rw [length_diff_map]; exact hi)]
    have h0 : (((diff_col tpx).map (Option.map (fun d => max d 0))).getD 0 none) = none := by
      rw [getD_map_opt _ _ 0 (by simp [diff_col]; omega)]
      unfold diff_col
      rw [getD_idxMap _ _ _ _ (by omega : 0 < tpx.length), if_pos rfl]
      rfl
    have hmem : (((diff_col tpx).map (Option.map (fun d => max d 0))).getD 0 none) ∈
        (List.range' (13 + 1 - 14) 14).map
          (fun j => ((diff_col tpx).map (Option.map (fun d => max d 0))).getD j none) := by
      apply List.mem_map_of_mem
      exact (mem_range'_iff _ _ _).mpr ⟨by omega, by omega⟩
    cases hs : sequenceO ((List.range' (13 + 1 - 14) 14).map
        (fun j => ((diff_col tpx).map (Option.map (fun d => max d 0))).getD j none)) with
    | none => rfl
    | some w =>
      exfalso
      have := (sequenceO_isSome_iff _).mp (by rw [hs]; rfl) _ hmem
      rw [h0] at this
      simp at this

theorem rsi_isSome_of_vary (tpx : List ℚ) (i : Nat) (h14 : 14 ≤ i) (hi : i < tpx.length)
    (hv : ∃ j, i - 13 ≤ j ∧ j ≤ i ∧ tpx.getD (j - 1) 0 ≠ tpx.getD j 0) :
    ((rsi_col tpx).getD i none).isSome := by
  rw [rsi_getD_eq tpx i h14 hi]
  by_cases hL : avg_loss tpx i = 0
  · by_cases hG : avg_gain tpx i = 0
    · exfalso
      obtain ⟨j, hj1, hj2, hne⟩ := hv
      have hjmem : j ∈ List.range' (i - 13) 14 := (mem_range'_iff _ _ _).mpr ⟨hj1, by omega⟩
      have hGsum : ((List.range' (i - 13) 14).map (fun j => max (tdiff tpx j) 0)).sum = 0 := by
        unfold avg_gain at hG
        rcases div_eq_zero_iff.mp hG with h | h
        · exact h
        · norm_num at h
      have hLsum : ((List.range' (i - 13) 14).map (fun j => max (-tdiff tpx j) 0)).sum = 0 := by
        unfold avg_loss at hL
        rcases div_eq_zero_iff.mp hL with h | h
        · exact h
        · norm_num at h
      have hg0 := sum_eq_zero_of_nonneg (fun x hx => by
          obtain ⟨k, _, rfl⟩ := List.mem_map.mp hx
          exact le_max_right _ _) hGsum
        (max (tdiff tpx j) 0) (List.mem_map_of_mem _ hjmem)
      have hl0 := sum_eq_zero_of_nonneg (fun x hx => by
          obtain ⟨k, _, rfl⟩ := List.mem_map.mp hx
          exact le_max_right _ _) hLsum
        (max (-tdiff tpx j) 0) (List.mem_map_of_mem _ hjmem)
      have h1 : tdiff tpx j ≤ 0 := by
        have h := le_max_left (tdiff tpx j) 0
        rw [hg0] at h
        exact h
      have h2 : 0 ≤ tdiff tpx j := by
        have h := le_max_left (-tdiff tpx j) 0
        rw [hl0] at h
        linarith
      have h3 : tdiff tpx j = 0 := le_antisymm h1 h2
      unfold tdiff at h3
      apply hne
      linarith
    · rw [if_pos hL, if_neg hG]
      rfl
  · rw [if_neg hL]
    rfl

theorem rowAt_eq_some (dates : List Date) (sp usd tpx : List ℚ) (i : Nat)
    (hd : i < dates.length) (hs : i < sp.length) (hu : i < usd.length) (ht : i < tpx.length)
    (h14 : 14 ≤ i) (hrsi : ((rsi_col tpx).getD i none).isSome) :
    rowAt dates sp usd tpx i = some (mkRow dates sp usd tpx i) := by
  have e1 := getElem?_eq_someD dates i date0 hd
  have e2 := getElem?_eq_someD sp i 0 hs
  have e3 := getElem?_eq_someD usd i 0 hu
  have e4 := getElem?_eq_someD tpx i 0 ht
  have e5 := pct_change_some sp i (by omega) hs
  have e6 := pct_change_some usd i (by omega) hu
  obtain ⟨v7, e7⟩ := Option.isSome_iff_exists.mp (ma5_isSome sp i (by omega) hs)
  obtain ⟨v8, e8⟩ := Option.isSome_iff_exists.mp (vol_isSome tpx i (by omega) ht)
  obtain ⟨v9, e9⟩ := Option.isSome_iff_exists.mp hrsi
  obtain ⟨v10, e10⟩ := Option.isSome_iff_exists.mp (shift_pct_some sp 1 i (by omega) hs)
  obtain ⟨v11, e11⟩ := Option.isSome_iff_exists.mp (shift_pct_some sp 2 i (by omega) hs)
  obtain ⟨v12, e12⟩ := Option.isSome_iff_exists.mp (shift_pct_some sp 3 i (by omega) hs)
  simp only [rowAt, mkRow, e1, e2, e3, e4, e5, e6, e7, e8, e9, e10, e11, e12,
    Option.some_bind, Option.getD_some]

theorem rowAt_some_elim {dates : List Date} {sp usd tpx : List ℚ} {i : Nat} {r : Row}
    (h : rowAt dates sp usd tpx i = some r) :
    dates[i]? = some r.date ∧ tpx[i]? = some r.tpx ∧
      ((rsi_col tpx).getD i none).isSome := by
  simp only [rowAt, Option.bind_eq_some, Option.pure_def, Option.some.injEq] at h
  obtain ⟨d, hd, sv, hsv, uv, huv, tv, htv, c1, hc1, c2, hc2, m5, hm5, vl, hvl, ri, hri,
    l1, hl1, l2, hl2, l3, hl3, heq⟩ := h
  subst heq
  exact ⟨hd, htv, by rw [hri]; rfl⟩

theorem rowAt_none_of_lt14 (dates : List Date) (sp usd tpx : List ℚ) (i : Nat)
    (h14 : i < 14) : rowAt dates sp usd tpx i = none := by
  cases h : rowAt dates sp usd tpx i with
  | none => rfl
  | some r =>
    exfalso
    obtain ⟨_, htv, hrsi⟩ := rowAt_some_elim h
    obtain ⟨hi, _⟩ := List.getElem?_eq_some.mp htv
    rw [rsi_none_lt14 tpx i h14 hi] at hrsi
    simp at hrsi

theorem frame_eq (dates : List Date) (sp usd tpx : List ℚ)
    (hs : sp.length = dates.length) (hu : usd.length = dates.length)
    (ht : tpx.length = dates.length)
    (hvary : ∀ i, 14 ≤ i → i < dates.length →
      ∃ j, i - 13 ≤ j ∧ j ≤ i ∧ tpx.getD (j - 1) 0 ≠ tpx.getD j 0) :
    add_technical_indicators dates sp usd tpx =
      (List.range' 14 (dates.length - 14)).map (mkRow dates sp usd tpx) := by
  unfold add_technical_indicators
  rcases Nat.lt_or_ge dates.length 14 with hn | hn
  · have h1 : (List.range dates.length).filterMap (rowAt dates sp usd tpx) = [] := by
      rw [List.filterMap_eq_nil_iff]
      intro a ha
      exact rowAt_none_of_lt14 dates sp usd tpx a (by have := List.mem_range.mp ha; omega)
    rw [h1]
    have h2 : dates.length - 14 = 0 := by omega
    rw [h2]
    rfl
  · have hsplit : List.range dates.length =
        List.range' 0 14 ++ List.range' (0 + 14) (dates.length - 14) := by
      rw [List.range_eq_range', List.range'_append_1]
      congr 1
      omega
    rw [hsplit, List.filterMap_append]
    have h1 : (List.range' 0 14).filterMap (rowAt dates sp usd tpx) = [] := by
      rw [List.filterMap_eq_nil_iff]
      intro a ha
      have hb := (mem_range'_iff _ _ _).mp ha
      exact rowAt_none_of_lt14 dates sp usd tpx a (by omega)
    have h2 : (List.range' (0 + 14) (dates.length - 14)).filterMap (rowAt dates sp usd tpx)
        = (List.range' 14 (dates.length - 14)).map (mkRow dates sp usd tpx) := by
      have e : (0 : Nat) + 14 = 14 := rfl
      rw [e]
      apply filterMap_eq_map_of
      intro a ha
      have hb := (mem_range'_iff _ _ _).mp ha
      have h14a : 14 ≤ a := by omega
      have hda : a < dates.length := by omega
      exact rowAt_eq_some dates sp usd tpx a hda (by omega) (by omega) (by omega) h14a
        (rsi_isSome_of_vary tpx a h14a (by omega) (hvary a h14a hda))
    rw [h1, h2, List.nil_append]

/-! Characterization of `get_features_and_target` over an arbitrary frame. -/

theorem target_getD (data : List Row) (i : Nat) (hi : i < data.length) :
    (shift_neg1 (pct_change (data.map (·.tpx)))).getD i none =
      if i + 1 < data.length then some (realized_ret data i) else none := by
  have hlen : (pct_change (data.map (·.tpx))).length = data.length := by
    rw [length_pct_change, List.length_map]
  rw [shift_neg1_getD _ i (by rw [hlen]; exact hi)]
  by_cases h : i + 1 < data.length
  · rw [if_pos h]
    rw [pct_change_some _ (i + 1) (by omega) (by rw [List.length_map]; exact h)]
    simp [realized_ret]
  · rw [if_neg h]
    rw [List.getD_eq_getElem?_getD, List.getElem?_eq_none (by rw [hlen]; omega)]
    rfl

theorem valid_eq (data : List Row) :
    (List.range data.length).filter
      (fun i => ((shift_neg1 (pct_change (data.map (·.tpx)))).getD i none).isSome) =
      List.range (data.length - 1) := by
  have hcong : ∀ a ∈ List.range data.length,
      (((shift_neg1 (pct_change (data.map (·.tpx)))).getD a none).isSome)
        = decide (a + 1 < data.length) := by
    intro a ha
    rw [target_getD data a (List.mem_range.mp ha)]
    by_cases h : a + 1 < data.length
    · simp [h]
    · simp [h]
  rw [List.filter_congr hcong, range_filter_succ_lt]

theorem Xidx_eq (data : List Row) :
    (ft_of_data data).Xidx = List.range (data.length - 2) := by
  simp only [ft_of_data]
  rw [valid_eq data, range_dropLast]
  have h2 : data.length - 1 - 1 = data.length - 2 := by omega
  rw [h2]

theorem X_eq (data : List Row) :
    (ft_of_data data).X =
      (List.range (data.length - 2)).map (fun i => (data.getD i row0).f) := by
  simp only [ft_of_data]
  rw [valid_eq data]
  have h1 : (List.range (data.length - 1)).filterMap (fun i => (data[i]?).map (·.f))
      = (List.range (data.length - 1)).map (fun i => (data.getD i row0).f) := by
    apply filterMap_eq_map_of
    intro a ha
    have hia := List.mem_range.mp ha
    rw [getElem?_eq_someD data a row0 (by omega)]
    rfl
  rw [h1, dropLast_map_range]
  have h2 : data.length - 1 - 1 = data.length - 2 := by omega
  rw [h2]

theorem X_length (data : List Row) :
    (ft_of_data data).X.length = data.length - 2 := by
  rw [X_eq]
  simp

theorem ft_data_eq (data : List Row) : (ft_of_data data).data = data := rfl

theorem length_returns_col (data : List Row) :
    (returns_col data).length = data.length := by
  unfold returns_col
  rw [length_shift_neg1, length_pct_change, List.length_map]

theorem actual_returns_eq (data : List Row) :
    actual_returns (ft_of_data data) =
      ((List.range (data.length - 2)).map (realized_ret data)).map some := by
  unfold actual_returns
  rw [Xidx_eq, ft_data_eq, List.map_map]
  apply filterMap_eq_map_of
  intro a ha
  have hia := List.mem_range.mp ha
  rw [getElem?_eq_someD _ a none (by rw [length_returns_col]; omega)]
  unfold returns_col
  rw [target_getD data a (by omega), if_pos (by omega)]
  rfl

theorem recDates_eq (data : List Row) :
    (ft_of_data data).Xidx.filterMap
        (fun i => (((ft_of_data data).data)[i]?).map (·.date)) =
      (List.range (data.length - 2)).map (fun i => (data.getD i row0).date) := by
  rw [Xidx_eq, ft_data_eq]
  apply filterMap_eq_map_of
  intro a ha
  rw [getElem?_eq_someD data a row0 (by have := List.mem_range.mp ha; omega)]
  rfl

/-! Closed form of the asset-compounding loop. -/

theorem omul_some (a b : ℚ) : omul (some a) (some b) = some (a * b) := rfl

theorem oadd_some (a b : ℚ) : oadd (some a) (some b) = some (a + b) := rfl

theorem zip_cons_some (p : Nat) (pt : List Nat) (r : ℚ) (rt : List ℚ) :
    (p :: pt).zip ((r :: rt).map some) = (p, some r) :: pt.zip (rt.map some) := rfl

theorem zip_cons_plain (p : Nat) (pt : List Nat) (r : ℚ) (rt : List ℚ) :
    (p :: pt).zip (r :: rt) = (p, r) :: pt.zip rt := rfl

theorem simulate_fst (preds : List Nat) (rs : List ℚ) (cs cm : Option ℚ)
    (hl : preds.length = rs.length) :
    (simulate (preds.zip (rs.map some)) cs cm).1 = preds := by
  induction preds generalizing rs cs cm with
  | nil => simp [simulate]
  | cons p pt ih =>
    cases rs with
    | nil => simp at hl
    | cons r rt =>
      rw [zip_cons_some]
      simp only [simulate]
      rw [ih rt _ _ (by simpa using hl)]

theorem simulate_market (preds : List Nat) (rs : List ℚ) (cs : Option ℚ) (b : ℚ)
    (hl : preds.length = rs.length) :
    (simulate (preds.zip (rs.map some)) cs (some b)).2.2.1 =
      (List.range rs.length).map (fun i =>
        some (b * ((rs.take (i + 1)).map (fun r => 1 + r)).prod)) := by
  induction preds generalizing rs cs b with
  | nil =>
    cases rs with
    | nil => simp [simulate]
    | cons r rt => simp at hl
  | cons p pt ih =>
    cases rs with
    | nil => simp at hl
    | cons r rt =>
      rw [zip_cons_some]
      simp only [simulate, oadd_some, omul_some]
      rw [ih rt _ (b * (1 + r)) (by simpa using hl)]
      rw [List.length_cons, List.range_succ_eq_map, List.map_cons, List.map_map]
      congr 1
      · rw [List.take_succ_cons, List.map_cons, List.prod_cons, List.take_zero,
          List.map_nil, List.prod_nil, mul_one]
      · apply List.map_congr_left
        intro i hi
        simp only [Function.comp_apply]
        rw [List.take_succ_cons, List.map_cons, List.prod_cons, mul_assoc]

theorem simulate_strategy (preds : List Nat) (rs : List ℚ) (a : ℚ) (cm : Option ℚ)
    (hl : preds.length = rs.length) :
    (simulate (preds.zip (rs.map some)) (some a) cm).2.1 =
      (List.range rs.length).map (fun i =>
        some (a * (((preds.zip rs).take (i + 1)).map
          (fun pr => if pr.1 = 1 then 1 + pr.2 else 1)).prod)) := by
  induction preds generalizing rs a cm with
  | nil =>
    cases rs with
    | nil => simp [simulate]
    | cons r rt => simp at hl
  | cons p pt ih =>
    cases rs with
    | nil => simp at hl
    | cons r rt =>
      rw [zip_cons_some]
      simp only [simulate, oadd_some, omul_some]
      have ha : (if p = 1 then some (a * (1 + r)) else some (a * 1)) =
          some (if p = 1 then a * (1 + r) else a * 1) := by
        by_cases hp : p = 1
        · rw [if_pos hp, if_pos hp]
        · rw [if_neg hp, if_neg hp]
      rw [ha, ih rt (if p = 1 then a * (1 + r) else a * 1) _ (by simpa using hl)]
      rw [zip_cons_plain, List.length_cons, List.range_succ_eq_map, List.map_cons,
        List.map_map]
      congr 1
      · rw [List.take_succ_cons, List.map_cons, List.prod_cons, List.take_zero,
          List.map_nil, List.prod_nil, mul_one]
        by_cases hp : p = 1
        · simp [hp]
        · simp [hp]
      · apply List.map_congr_left
        intro i hi
        simp only [Function.comp_apply]
        rw [List.take_succ_cons, List.map_cons, List.prod_cons]
        by_cases hp : p = 1
        · simp [hp, mul_assoc]
        · simp [hp, mul_assoc]

theorem simulate_final_strategy (preds : List Nat) (rs : List ℚ) (a : ℚ) (cm : Option ℚ)
    (hl : preds.length = rs.length) :
    (simulate (preds.zip (rs.map some)) (some a) cm).2.2.2.1 =
      some (a * ((preds.zip rs).map (fun pr => if pr.1 = 1 then 1 + pr.2 else 1)).prod) := by
  induction preds generalizing rs a cm with
  | nil =>
    cases rs with
    | nil => simp [simulate]
    | cons r rt => simp at hl
  | cons p pt ih =>
    cases rs with
    | nil => simp at hl
    | cons r rt =>
      rw [zip_cons_some]
      simp only [simulate, oadd_some, omul_some]
      have ha : (if p = 1 then some (a * (1 + r)) else some (a * 1)) =
          some (if p = 1 then a * (1 + r) else a * 1) := by
        by_cases hp : p = 1
        · rw [if_pos hp, if_pos hp]
        · rw [if_neg hp, if_neg hp]
      rw [ha, ih rt (if p = 1 then a * (1 + r) else a * 1) _ (by simpa using hl)]
      rw [zip_cons_plain, List.map_cons, List.prod_cons]
      by_cases hp : p = 1
      · simp [hp, mul_assoc]
      · simp [hp, mul_assoc]

theorem simulate_final_market (preds : List Nat) (rs : List ℚ) (cs : Option ℚ) (b : ℚ)
    (hl : preds.length = rs.length) :
    (simulate (preds.zip (rs.map some)) cs (some b)).2.2.2.2 =
      some (b * (rs.map (fun r => 1 + r)).prod) := by
  induction preds generalizing rs cs b with
  | nil =>
    cases rs with
    | nil => simp [simulate]
    | cons r rt => simp at hl
  | cons p pt ih =>
    cases rs with
    | nil => simp at hl
    | cons r rt =>
      rw [zip_cons_some]
      simp only [simulate, oadd_some, omul_some]
      rw [ih rt _ (b * (1 + r)) (by simpa using hl)]
      rw [List.map_cons, List.prod_cons, mul_assoc]

theorem mkRecords_eq (ds : List Date) (ss ms : List (Option ℚ)) (ps : List Nat)
    (h1 : ss.length = ds.length) (h2 : ms.length = ds.length) (h3 : ps.length = ds.length) :
    mkRecords ds ss ms ps =
      (List.range ds.length).map (fun i =>
        ⟨ds.getD i date0, ss.getD i none, ms.getD i none, ps.getD i 0⟩) := by
  induction ds generalizing ss ms ps with
  | nil =>
    cases ss with
    | nil => rfl
    | cons s st => simp at h1
  | cons d dt ih =>
    cases ss with
    | nil => simp at h1
    | cons s st =>
      cases ms with
      | nil => simp at h2
      | cons m mt =>
        cases ps with
        | nil => simp at h3
        | cons p pt =>
          rw [List.length_cons, List.range_succ_eq_map, List.map_cons, List.map_map]
          show (⟨d, s, m, p⟩ : Record) :: mkRecords dt st mt pt = _
          congr 1
          rw [ih st mt pt (by simpa using h1) (by simpa using h2) (by simpa using h3)]
          apply List.map_congr_left
          intro i hi
          rfl

/-! RSI saturation and frame positivity. -/

theorem rsi_saturates (tpx : List ℚ) (i : Nat) (h14 : 14 ≤ i) (hi : i < tpx.length)
    (hmono : ∀ j, i - 13 ≤ j → j ≤ i → tpx.getD (j - 1) 0 ≤ tpx.getD j 0)
    (hgain : ∃ j, i - 13 ≤ j ∧ j ≤ i ∧ tpx.getD (j - 1) 0 < tpx.getD j 0) :
    (rsi_col tpx).getD i none = some 100 := by
  rw [rsi_getD_eq tpx i h14 hi]
  have hL : avg_loss tpx i = 0 := by
    unfold avg_loss
    rw [div_eq_zero_iff]
    left
    apply List.sum_eq_zero
    intro x hx
    obtain ⟨j, hj, rfl⟩ := List.mem_map.mp hx
    have hb := (mem_range'_iff _ _ _).mp hj
    have hd := hmono j (by omega) (by omega)
    have hneg : -tdiff tpx j ≤ 0 := by
      unfold tdiff
      linarith
    rw [max_eq_right hneg]
  have hG : avg_gain tpx i ≠ 0 := by
    unfold avg_gain
    obtain ⟨j, hj1, hj2, hlt⟩ := hgain
    have hjmem : j ∈ List.range' (i - 13) 14 := (mem_range'_iff _ _ _).mpr ⟨hj1, by omega⟩
    have hjval : (0 : ℚ) < max (tdiff tpx j) 0 := by
      have : (0 : ℚ) < tdiff tpx j := by
        unfold tdiff
        linarith
      rw [max_eq_left this.le]
      exact this
    have hle := List.single_le_sum (l := (List.range' (i - 13) 14).map
        (fun j => max (tdiff tpx j) 0)) (fun x hx => by
      obtain ⟨k, _, rfl⟩ := List.mem_map.mp hx
      exact le_max_right _ _) _ (List.mem_map_of_mem _ hjmem)
    have hpos : (0 : ℚ) <
        ((List.range' (i - 13) 14).map (fun j => max (tdiff tpx j) 0)).sum := lt_of_lt_of_le hjval hle
    positivity
  rw [if_pos hL, if_neg hG]

theorem frame_tpx_mem {dates : List Date} {sp usd tpx : List ℚ} {r : Row}
    (h : r ∈ add_technical_indicators dates sp usd tpx) : r.tpx ∈ tpx := by
  unfold add_technical_indicators at h
  obtain ⟨i, _, hrow⟩ := List.mem_filterMap.mp h
  obtain ⟨_, htv, _⟩ := rowAt_some_elim hrow
  exact List.getElem?_mem htv

theorem realized_ret_gt (data : List Row) (tpx : List ℚ)
    (hsub : ∀ r ∈ data, r.tpx ∈ tpx) (hpos : ∀ x ∈ tpx, 0 < x) (i : Nat)
    (hi : i + 1 < data.length) :
    -1 < realized_ret data i := by
  have h0 : 0 < (data.map (·.tpx)).getD i 0 := by
    rw [List.getD_eq_getElem?_getD, List.getElem?_map,
      List.getElem?_eq_getElem (by omega : i < data.length)]
    exact hpos _ (hsub _ (List.getElem_mem _))
  have h1 : 0 < (data.map (·.tpx)).getD (i + 1) 0 := by
    rw [List.getD_eq_getElem?_getD, List.getElem?_map, List.getElem?_eq_getElem hi]
    exact hpos _ (hsub _ (List.getElem_mem _))
  unfold realized_ret
  have hq := div_pos h1 h0
  have hb : (data.map (·.tpx)).getD i 0 ≠ 0 := ne_of_gt h0
  rw [sub_div, div_self hb]
  linarith

/-! Characterization of the full `run_backtest` output. -/

theorem actual_returns_eq2 (data : List Row) :
    actual_returns (ft_of_data data) = (retSeq data).map some :=
  actual_returns_eq data

theorem predSeq_unfold (fit : Fit) (θ : ℚ) (data : List Row) :
    to_positions θ (backtest_probs fit (ft_of_data data)) = predSeq fit θ data := rfl

theorem predSeq_length (fit : Fit) (θ : ℚ) (data : List Row) :
    (predSeq fit θ data).length = data.length - 2 := by
  unfold predSeq to_positions backtest_probs
  rw [List.length_map, List.length_map, X_length]

theorem retSeq_length (data : List Row) : (retSeq data).length = data.length - 2 := by
  unfold retSeq
  rw [List.length_map, List.length_range]

theorem run_backtest_eq (fit : Fit) (θ : ℚ) (dates : List Date) (sp usd tpx : List ℚ) :
    (run_backtest fit θ dates sp usd tpx).1 =
      (List.range ((add_technical_indicators dates sp usd tpx).length - 2)).map (fun i =>
        ⟨((add_technical_indicators dates sp usd tpx).getD i row0).date,
         some (stratProd fit θ (add_technical_indicators dates sp usd tpx) (i + 1)),
         some (mktProd (add_technical_indicators dates sp usd tpx) (i + 1)),
         (predSeq fit θ (add_technical_indicators dates sp usd tpx)).getD i 0⟩) ∧
    (run_backtest fit θ dates sp usd tpx).2.1 =
      some ((stratProd fit θ (add_technical_indicators dates sp usd tpx)
        ((add_technical_indicators dates sp usd tpx).length - 2) - 1) * 100) ∧
    (run_backtest fit θ dates sp usd tpx).2.2 =
      some ((mktProd (add_technical_indicators dates sp usd tpx)
        ((add_technical_indicators dates sp usd tpx).length - 2) - 1) * 100) := by
  have hpredlen := predSeq_length fit θ (add_technical_indicators dates sp usd tpx)
  have hretlen := retSeq_length (add_technical_indicators dates sp usd tpx)
  have hl : (predSeq fit θ (add_technical_indicators dates sp usd tpx)).length
      = (retSeq (add_technical_indicators dates sp usd tpx)).length := by
    rw [hpredlen, hretlen]
  have hziplen : ((predSeq fit θ (add_technical_indicators dates sp usd tpx)).zip
      (retSeq (add_technical_indicators dates sp usd tpx))).length
      = (add_technical_indicators dates sp usd tpx).length - 2 := by
    rw [List.length_zip, hpredlen, hretlen, Nat.min_self]
  simp only [run_backtest, get_features_and_target]
  rw [actual_returns_eq2, predSeq_unfold]
  refine ⟨?_, ?_, ?_⟩
  · rw [recDates_eq]
    rw [simulate_fst _ _ _ _ hl, simulate_strategy _ _ _ _ hl, simulate_market _ _ _ _ hl]
    rw [mkRecords_eq _ _ _ _ (by simp [hretlen]) (by simp [hretlen]) (by simp [hpredlen])]
    rw [List.length_map, List.length_range, hretlen]
    apply List.map_congr_left
    intro i hi
    have hiN := List.mem_range.mp hi
    rw [getD_idxMap _ _ _ _ hiN, getD_idxMap _ _ _ _ hiN, getD_idxMap _ _ _ _ hiN,
      one_mul, one_mul]
    simp only [stratProd, mktProd]
  · rw [simulate_final_strategy _ _ _ _ hl]
    simp only [Option.map_some', one_mul]
    have htake : ((predSeq fit θ (add_technical_indicators dates sp usd tpx)).zip
        (retSeq (add_technical_indicators dates sp usd tpx))).take
          ((add_technical_indicators dates sp usd tpx).length - 2)
        = (predSeq fit θ (add_technical_indicators dates sp usd tpx)).zip
            (retSeq (add_technical_indicators dates sp usd tpx)) :=
      List.take_of_length_le (by rw [hziplen])
    simp only [stratProd, htake]
  · rw [simulate_final_market _ _ _ _ hl]
    simp only [Option.map_some', one_mul]
    have htake : (retSeq (add_technical_indicators dates sp usd tpx)).take
          ((add_technical_indicators dates sp usd tpx).length - 2)
        = retSeq (add_technical_indicators dates sp usd tpx) :=
      List.take_of_length_le (by rw [hretlen])
    simp only [mktProd, htake]

/-! Claim theorems. -/

/-- C1: in the backtest simulation, for every rectangular, strictly positive
price table with a non-empty feature set and every threshold, the realized
return sequence consumed is `retSeq` (every cell defined), and for every day
`i` of the evaluated sequence in date order the emitted `marketAsset` is
`mktProd … (i+1)` — the cumulative product of `(1 + return)` over all
evaluated days up to and including day `i`, regardless of position — while
the emitted `strategyAsset` is `stratProd … (i+1)` — the same product
except that the factor is `(1 + return)` exactly on days with
`position = 1` and `1` (unchanged) on days with `position = 0`.  Both
multipliers are seeded at 1.0: the day-0 values are the single-factor
products. -/
theorem c1_backtest_curves (fit : Fit) (θ : ℚ) (dates : List Date) (sp usd tpx : List ℚ)
    (hs : sp.length = dates.length) (hu : usd.length = dates.length)
    (ht : tpx.length = dates.length) (hpos : ∀ x ∈ tpx, 0 < x)
    (hne : (get_features_and_target dates sp usd tpx).X ≠ []) :
    actual_returns (get_features_and_target dates sp usd tpx) =
      (retSeq (add_technical_indicators dates sp usd tpx)).map some ∧
    (run_backtest fit θ dates sp usd tpx).1.length =
      (retSeq (add_technical_indicators dates sp usd tpx)).length ∧
    ∀ i, i < (retSeq (add_technical_indicators dates sp usd tpx)).length →
      ((run_backtest fit θ dates sp usd tpx).1.getD i record0).market =
        some (mktProd (add_technical_indicators dates sp usd tpx) (i + 1)) ∧
      ((run_backtest fit θ dates sp usd tpx).1.getD i record0).strategy =
        some (stratProd fit θ (add_technical_indicators dates sp usd tpx) (i + 1)) ∧
      ((run_backtest fit θ dates sp usd tpx).1.getD i record0).position =
        (predSeq fit θ (add_technical_indicators dates sp usd tpx)).getD i 0 := by
  obtain ⟨h1, h2, h3⟩ := run_backtest_eq fit θ dates sp usd tpx
  refine ⟨?_, ?_, ?_⟩
  · simp only [get_features_and_target]
    exact actual_returns_eq2 _
  · rw [h1]
    simp [retSeq_length]
  · intro i hi
    rw [retSeq_length] at hi
    rw [h1, getD_idxMap _ _ _ _ hi]
    exact ⟨rfl, rfl, rfl⟩

/-- C1 witness: concrete 18-day strictly increasing table, constant
classifier, threshold 1/2. -/
theorem c1_backtest_curves_witness :
    ((run_backtest constFit (1/2) (demoDates 18) (demoVals 18) (demoVals 18)
        (demoVals 18)).1.getD 0 record0).market =
      some (mktProd (add_technical_indicators (demoDates 18) (demoVals 18) (demoVals 18)
        (demoVals 18)) 1) := by
  have h := c1_backtest_curves constFit (1/2) (demoDates 18) (demoVals 18) (demoVals 18)
    (demoVals 18) (by decide) (by decide) (by decide) (by with_unfolding_all decide)
    (by with_unfolding_all decide)
  exact (h.2.2 0 (by with_unfolding_all decide)).1

/-- C2 counterexample: a strictly increasing 16-row table.  The indicator
frame survives `dropna` with exactly the two dates at positions 14 and 15,
and position 14 has a defined next-day return (hence a defined label), so
the claim demands exactly one feature/label row (for position 14); the code
emits none: `X` is empty, because `get_features_and_target` drops the last
row once via the valid-index intersection and then a second time via
`X.iloc[:-1]`. -/
theorem c2_counterexample :
    (add_technical_indicators (demoDates 16) (demoVals 16) (demoVals 16)
      (demoVals 16)).length = 2 ∧
    ((returns_col (add_technical_indicators (demoDates 16) (demoVals 16) (demoVals 16)
      (demoVals 16))).getD 0 none).isSome = true ∧
    (get_features_and_target (demoDates 16) (demoVals 16) (demoVals 16) (demoVals 16)).X
      = [] := by
  refine ⟨by with_unfolding_all decide, by with_unfolding_all decide,
    by with_unfolding_all decide⟩

/-- C2 amended: for every rectangular, strictly positive price table whose
domestic series is not flat across any 14-day window, the feature frame
contains exactly one row per date from position 14 on (dates before the
14-day warm-up are absent), and the feature/label universe `X` consists of
that frame minus its final TWO rows — the last (whose next-day label is
undefined) and additionally the second-to-last, which the code's extra
`iloc[:-1]` truncation discards even though its label is defined. -/
theorem c2_feature_universe (dates : List Date) (sp usd tpx : List ℚ)
    (hs : sp.length = dates.length) (hu : usd.length = dates.length)
    (ht : tpx.length = dates.length) (hpos : ∀ x ∈ tpx, 0 < x)
    (hvary : ∀ i, 14 ≤ i → i < dates.length →
      ∃ j, i - 13 ≤ j ∧ j ≤ i ∧ tpx.getD (j - 1) 0 ≠ tpx.getD j 0) :
    (add_technical_indicators dates sp usd tpx).map (·.date) = dates.drop 14 ∧
    (get_features_and_target dates sp usd tpx).Xidx =
      List.range ((add_technical_indicators dates sp usd tpx).length - 2) ∧
    (get_features_and_target dates sp usd tpx).X.length =
      (add_technical_indicators dates sp usd tpx).length - 2 := by
  refine ⟨?_, ?_, ?_⟩
  · rw [frame_eq dates sp usd tpx hs hu ht hvary, List.map_map,
      drop_eq_map_getD dates 14 date0]
    apply List.map_congr_left
    intro a ha
    rfl
  · simp only [get_features_and_target]
    exact Xidx_eq _
  · simp only [get_features_and_target]
    exact X_length _

/-- C2 witness for the amended claim: the 18-day table. -/
theorem c2_feature_universe_witness :
    (get_features_and_target (demoDates 18) (demoVals 18) (demoVals 18) (demoVals 18)).X.length
      = (add_technical_indicators (demoDates 18) (demoVals 18) (demoVals 18)
          (demoVals 18)).length - 2 := by
  have h := c2_feature_universe (demoDates 18) (demoVals 18) (demoVals 18) (demoVals 18)
    (by decide) (by decide) (by decide) (by with_unfolding_all decide)
    (by
      intro i h14 hlt
      have hlt18 : i < 18 := by simpa [demoDates] using hlt
      refine ⟨i, by omega, le_refl i, ?_⟩
      interval_cases i <;> with_unfolding_all decide)
  exact h.2.2

/-- C3: the classifier inside `run_backtest` is fit only on the chronological
prefix consisting of the first `⌊0.8·|X|⌋` feature rows and their labels
(`split_point`): any two training procedures that agree on that prefix pair
produce identical backtest output, so no feature row or label outside the
first 80% influences the fitted model or anything derived from it. -/
theorem c3_train_on_prefix (fit1 fit2 : Fit) (θ : ℚ) (dates : List Date)
    (sp usd tpx : List ℚ)
    (h : fit1 ((get_features_and_target dates sp usd tpx).X.take
          (split_point (get_features_and_target dates sp usd tpx)))
        ((get_features_and_target dates sp usd tpx).y.take
          (split_point (get_features_and_target dates sp usd tpx)))
      = fit2 ((get_features_and_target dates sp usd tpx).X.take
          (split_point (get_features_and_target dates sp usd tpx)))
        ((get_features_and_target dates sp usd tpx).y.take
          (split_point (get_features_and_target dates sp usd tpx)))) :
    run_backtest fit1 θ dates sp usd tpx = run_backtest fit2 θ dates sp usd tpx := by
  simp only [run_backtest, backtest_probs, backtest_model, h]

/-- C3 witness: the agreement hypothesis holds trivially for one concrete
trainer on the 18-day table. -/
theorem c3_train_on_prefix_witness :
    run_backtest constFit (1/2) (demoDates 18) (demoVals 18) (demoVals 18) (demoVals 18)
      = run_backtest constFit (1/2) (demoDates 18) (demoVals 18) (demoVals 18)
          (demoVals 18) :=
  c3_train_on_prefix constFit constFit (1/2) (demoDates 18) (demoVals 18) (demoVals 18)
    (demoVals 18) rfl

/-- C4: whenever `train_and_predict` succeeds and the classifier's reported
class-1 probability lies in `[0,1]` (the `predict_proba` contract), the
reported confidence equals the probability of the predicted class — the
maximum of the two class probabilities of the latest feature row — and
therefore lies in `[1/2, 1]`. -/
theorem c4_confidence (fit : Fit) (dates : List Date) (sp usd tpx : List ℚ)
    (hp : ∀ X y x, 0 ≤ (fit X y).proba1 x ∧ (fit X y).proba1 x ≤ 1)
    (r : PredResult) (hr : train_and_predict fit dates sp usd tpx = some r) :
    ∃ lr, (add_technical_indicators dates sp usd tpx).getLast? = some lr ∧
      r.probability =
        max (proba_pair (fit (get_features_and_target dates sp usd tpx).X
            (get_features_and_target dates sp usd tpx).y) lr.f).1
          (proba_pair (fit (get_features_and_target dates sp usd tpx).X
            (get_features_and_target dates sp usd tpx).y) lr.f).2 ∧
      1/2 ≤ r.probability ∧ r.probability ≤ 1 := by
  unfold train_and_predict at hr
  cases hlast : (add_technical_indicators dates sp usd tpx).getLast? with
  | none =>
    rw [hlast] at hr
    simp at hr
  | some lr =>
    rw [hlast] at hr
    simp only [Option.map_some', Option.some.injEq] at hr
    obtain ⟨h0, h1⟩ := hp (get_features_and_target dates sp usd tpx).X
      (get_features_and_target dates sp usd tpx).y lr.f
    have hprob : r.probability =
        if predict_cls (fit (get_features_and_target dates sp usd tpx).X
            (get_features_and_target dates sp usd tpx).y) lr.f
        then (proba_pair (fit (get_features_and_target dates sp usd tpx).X
            (get_features_and_target dates sp usd tpx).y) lr.f).2
        else (proba_pair (fit (get_features_and_target dates sp usd tpx).X
            (get_features_and_target dates sp usd tpx).y) lr.f).1 := by
      rw [← hr]
    refine ⟨lr, rfl, ?_, ?_, ?_⟩
    · rw [hprob]
      simp only [predict_cls, proba_pair]
      by_cases hc : (1 : ℚ) - (fit (get_features_and_target dates sp usd tpx).X
          (get_features_and_target dates sp usd tpx).y).proba1 lr.f <
          (fit (get_features_and_target dates sp usd tpx).X
            (get_features_and_target dates sp usd tpx).y).proba1 lr.f
      · rw [if_pos (by simpa using hc), max_eq_right hc.le]
      · rw [if_neg (by simpa using hc)]
        push_neg at hc
        rw [max_eq_left hc]
    · rw [hprob]
      simp only [predict_cls, proba_pair]
      by_cases hc : (1 : ℚ) - (fit (get_features_and_target dates sp usd tpx).X
          (get_features_and_target dates sp usd tpx).y).proba1 lr.f <
          (fit (get_features_and_target dates sp usd tpx).X
            (get_features_and_target dates sp usd tpx).y).proba1 lr.f
      · rw [if_pos (by simpa using hc)]
        linarith
      · rw [if_neg (by simpa using hc)]
        push_neg at hc
        linarith
    · rw [hprob]
      simp only [predict_cls, proba_pair]
      by_cases hc : (1 : ℚ) - (fit (get_features_and_target dates sp usd tpx).X
          (get_features_and_target dates sp usd tpx).y).proba1 lr.f <
          (fit (get_features_and_target dates sp usd tpx).X
            (get_features_and_target dates sp usd tpx).y).proba1 lr.f
      · rw [if_pos (by simpa using hc)]
        linarith
      · rw [if_neg (by simpa using hc)]
        linarith

/-- C4 witness: the constant-1/2 classifier on the 17-day table. -/
theorem c4_confidence_witness :
    ∃ r, train_and_predict constFit (demoDates 17) (demoVals 17) (demoVals 17) (demoVals 17)
        = some r ∧ 1/2 ≤ r.probability ∧ r.probability ≤ 1 := by
  have hsome : (train_and_predict constFit (demoDates 17) (demoVals 17) (demoVals 17)
      (demoVals 17)).isSome := by with_unfolding_all decide
  obtain ⟨r, hr⟩ := Option.isSome_iff_exists.mp hsome
  have h := c4_confidence constFit (demoDates 17) (demoVals 17) (demoVals 17) (demoVals 17)
    (fun X y x => by constructor <;> norm_num [constFit]) r hr
  obtain ⟨lr, _, _, h3, h4⟩ := h
  exact ⟨r, hr, h3, h4⟩

/-- C5: for any date whose 14-day oscillator window is fully inside the
series and contains no losses (every day-over-day difference is
nonnegative, so the average loss is zero) while a gain is present (some
difference is strictly positive), the RSI cell is defined and equals the
saturating value 100 — the `avg_gain / 0 = inf` path of the float
arithmetic, `100 - 100 / (1 + inf) = 100`. -/
theorem c5_rsi_saturation (tpx : List ℚ) (i : Nat) (h14 : 14 ≤ i) (hi : i < tpx.length)
    (hmono : ∀ j, i - 13 ≤ j → j ≤ i → tpx.getD (j - 1) 0 ≤ tpx.getD j 0)
    (hgain : ∃ j, i - 13 ≤ j ∧ j ≤ i ∧ tpx.getD (j - 1) 0 < tpx.getD j 0) :
    (rsi_col tpx).getD i none = some 100 :=
  rsi_saturates tpx i h14 hi hmono hgain

/-- C5 witness: a strictly increasing 15-day series at position 14. -/
theorem c5_rsi_saturation_witness :
    (rsi_col (demoVals 15)).getD 14 none = some 100 := by
  have h := c5_rsi_saturation (demoVals 15) 14 (by decide) (by decide)
    (by
      intro j h1 h2
      interval_cases j <;> with_unfolding_all decide)
    ⟨14, by decide, by decide, by with_unfolding_all decide⟩
  exact h

/-- C6 counterexample: a 20-row table with no USDJPY column.  The claim says
the pipeline still succeeds with the currency feature omitted; instead the
unconditional read of `data["USDJPY"]` at `ai_service.py` line 11 raises
`KeyError` (embedded as `none`): the indicator builder and the whole
backtest fail. -/
theorem c6_counterexample :
    (⟨demoDates 20, demoVals 20, demoVals 20, none⟩ : RawTable).usdjpy = none ∧
    add_technical_indicators_table ⟨demoDates 20, demoVals 20, demoVals 20, none⟩ = none ∧
    run_backtest_table constFit (1/2) ⟨demoDates 20, demoVals 20, demoVals 20, none⟩
      = none :=
  ⟨rfl, rfl, rfl⟩

/-- C6 amended: for every input table lacking the USDJPY column, the
pipeline does not succeed: the feature set is static (always contains
`USDJPY_Chg`), the unconditional column access raises, and the indicator
builder and backtest both abort rather than omitting the feature. -/
theorem c6_missing_currency (fit : Fit) (θ : ℚ) (t : RawTable) (h : t.usdjpy = none) :
    add_technical_indicators_table t = none ∧ run_backtest_table fit θ t = none := by
  unfold add_technical_indicators_table run_backtest_table
  rw [h]
  exact ⟨rfl, rfl⟩

/-- C6 witness for the amended claim. -/
theorem c6_missing_currency_witness :
    add_technical_indicators_table ⟨demoDates 20, demoVals 20, demoVals 20, none⟩ = none ∧
    run_backtest_table constFit (1/2) ⟨demoDates 20, demoVals 20, demoVals 20, none⟩
      = none :=
  c6_missing_currency constFit (1/2) ⟨demoDates 20, demoVals 20, demoVals 20, none⟩ rfl

/-- C7: positions are derived pointwise as `1` if `probability ≥ threshold`
else `0`, so for every fixed probability series, lowering the threshold
never decreases the number of days with `position = 1`: the invested-day
count is monotonically non-increasing in the threshold. -/
theorem c7_threshold_monotone (t1 t2 : ℚ) (probs : List ℚ) (h : t1 ≤ t2) :
    (to_positions t2 probs).count 1 ≤ (to_positions t1 probs).count 1 := by
  induction probs with
  | nil => rfl
  | cons p pt ih =>
    unfold to_positions at ih ⊢
    simp only [List.map_cons, List.count_cons]
    by_cases h2 : t2 ≤ p
    · rw [if_pos h2, if_pos (le_trans h h2)]
      omega
    · rw [if_neg h2]
      by_cases h1 : t1 ≤ p
      · rw [if_pos h1]
        have e0 : (if ((0 : Nat) == 1) = true then 1 else 0) = 0 := rfl
        have e1 : (if ((1 : Nat) == 1) = true then 1 else 0) = 1 := rfl
        rw [e0, e1]
        omega
      · rw [if_neg h1]
        omega

/-- C7 witness: thresholds 0.3 and 0.5 on a two-day probability series. -/
theorem c7_threshold_monotone_witness :
    (to_positions (1/2) [1/4, 3/5]).count 1 ≤ (to_positions (3/10) [1/4, 3/5]).count 1 :=
  c7_threshold_monotone (3/10) (1/2) [1/4, 3/5] (by norm_num)

/-- C8: in every backtest run over a rectangular, strictly positive table
with a non-empty feature set, the position sequence and the realized
next-day-return sequence fed to the simulation have equal length, every
return cell consumed is defined (non-NaN), and the emitted record sequence
has that same common length — the alignment-error condition is
unreachable. -/
theorem c8_alignment (fit : Fit) (θ : ℚ) (dates : List Date) (sp usd tpx : List ℚ)
    (hs : sp.length = dates.length) (hu : usd.length = dates.length)
    (ht : tpx.length = dates.length) (hpos : ∀ x ∈ tpx, 0 < x)
    (hne : (get_features_and_target dates sp usd tpx).X ≠ []) :
    (predSeq fit θ (add_technical_indicators dates sp usd tpx)).length =
      (actual_returns (get_features_and_target dates sp usd tpx)).length ∧
    (∀ a ∈ actual_returns (get_features_and_target dates sp usd tpx), a.isSome) ∧
    (run_backtest fit θ dates sp usd tpx).1.length =
      (predSeq fit θ (add_technical_indicators dates sp usd tpx)).length := by
  have hAR : actual_returns (get_features_and_target dates sp usd tpx)
      = (retSeq (add_technical_indicators dates sp usd tpx)).map some := by
    simp only [get_features_and_target]
    exact actual_returns_eq2 _
  refine ⟨?_, ?_, ?_⟩
  · rw [hAR, List.length_map, predSeq_length, retSeq_length]
  · rw [hAR]
    intro a ha
    obtain ⟨x, _, rfl⟩ := List.mem_map.mp ha
    rfl
  · rw [(run_backtest_eq fit θ dates sp usd tpx).1, List.length_map, List.length_range,
      predSeq_length]

/-- C8 witness: the 18-day table with the constant classifier. -/
theorem c8_alignment_witness :
    (predSeq constFit (1/2) (add_technical_indicators (demoDates 18) (demoVals 18)
        (demoVals 18) (demoVals 18))).length =
      (actual_returns (get_features_and_target (demoDates 18) (demoVals 18) (demoVals 18)
        (demoVals 18))).length :=
  (c8_alignment constFit (1/2) (demoDates 18) (demoVals 18) (demoVals 18) (demoVals 18)
    (by decide) (by decide) (by decide) (by with_unfolding_all decide)
    (by with_unfolding_all decide)).1

theorem getD_mem_of_lt (l : List α) (i : Nat) (d : α) (h : i < l.length) : l.getD i d ∈ l := by
  rw [List.getD_eq_getElem?_getD, List.getElem?_eq_getElem h]
  exact List.getElem_mem h

theorem pos_diff_getD (ps : List Nat) (i : Nat) (hi : i < ps.length) :
    (pos_diff ps).getD i none =
      if i = 0 then none else some ((ps.getD i 0 : Int) - (ps.getD (i - 1) 0 : Int)) := by
  unfold pos_diff
  rw [getD_idxMap _ _ _ _ hi]

/-- C9: over any 0/1-valued position sequence, `buy_signals` selects exactly
the indices whose position transitions 0 → 1 versus the prior day and
`sell_signals` exactly the 1 → 0 transitions; index 0 has no prior day and
is never a signal (its `diff` cell is NaN, which compares unequal to ±1).
In particular for positions `[0,0,1,1,0,1]` the buys are `[2, 5]` and the
sell is `[4]`. -/
theorem c9_signals :
    (∀ ps : List Nat, (∀ x ∈ ps, x ≤ 1) → ∀ i,
      (i ∈ buy_signals ps ↔
        i < ps.length ∧ 0 < i ∧ ps.getD (i - 1) 0 = 0 ∧ ps.getD i 0 = 1) ∧
      (i ∈ sell_signals ps ↔
        i < ps.length ∧ 0 < i ∧ ps.getD (i - 1) 0 = 1 ∧ ps.getD i 0 = 0)) ∧
    buy_signals [0, 0, 1, 1, 0, 1] = [2, 5] ∧
    sell_signals [0, 0, 1, 1, 0, 1] = [4] := by
  refine ⟨?_, by decide, by decide⟩
  intro ps hps i
  constructor
  · simp only [buy_signals, List.mem_filter, List.mem_range, decide_eq_true_eq]
    constructor
    · rintro ⟨hilen, hd⟩
      rw [pos_diff_getD ps i hilen] at hd
      by_cases h0 : i = 0
      · rw [if_pos h0] at hd
        exact absurd hd (by simp)
      · rw [if_neg h0] at hd
        have hcur : ps.getD i 0 ≤ 1 := hps _ (getD_mem_of_lt ps i 0 hilen)
        have hprev : ps.getD (i - 1) 0 ≤ 1 := hps _ (getD_mem_of_lt ps (i - 1) 0 (by omega))
        have hv : (ps.getD i 0 : Int) - (ps.getD (i - 1) 0 : Int) = 1 := by
          simpa using hd
        refine ⟨hilen, by omega, by omega, by omega⟩
    · rintro ⟨hilen, hipos, hprev, hcur⟩
      refine ⟨hilen, ?_⟩
      rw [pos_diff_getD ps i hilen, if_neg (by omega), hprev, hcur]
      norm_num
  · simp only [sell_signals, List.mem_filter, List.mem_range, decide_eq_true_eq]
    constructor
    · rintro ⟨hilen, hd⟩
      rw [pos_diff_getD ps i hilen] at hd
      by_cases h0 : i = 0
      · rw [if_pos h0] at hd
        exact absurd hd (by simp)
      · rw [if_neg h0] at hd
        have hcur : ps.getD i 0 ≤ 1 := hps _ (getD_mem_of_lt ps i 0 hilen)
        have hprev : ps.getD (i - 1) 0 ≤ 1 := hps _ (getD_mem_of_lt ps (i - 1) 0 (by omega))
        have hv : (ps.getD i 0 : Int) - (ps.getD (i - 1) 0 : Int) = -1 := by
          simpa using hd
        refine ⟨hilen, by omega, by omega, by omega⟩
    · rintro ⟨hilen, hipos, hprev, hcur⟩
      refine ⟨hilen, ?_⟩
      rw [pos_diff_getD ps i hilen, if_neg (by omega), hprev, hcur]
      norm_num

/-- C9 witness: the general characterization applied at the concrete
sequence of the claim. -/
theorem c9_signals_witness : 2 ∈ buy_signals [0, 0, 1, 1, 0, 1] := by
  have h := (c9_signals.1 [0, 0, 1, 1, 0, 1] (by decide) 2).1
  exact h.mpr (by decide)

/-- C10: for every rectangular input table whose domestic-instrument values
are all strictly positive (so every realized per-day return exceeds -1),
every strategy and market asset value emitted by the backtest is a defined,
strictly positive number, and both final percentage returns are defined and
strictly greater than -100. -/
theorem c10_positive_assets (fit : Fit) (θ : ℚ) (dates : List Date) (sp usd tpx : List ℚ)
    (hs : sp.length = dates.length) (hu : usd.length = dates.length)
    (ht : tpx.length = dates.length) (hpos : ∀ x ∈ tpx, 0 < x) :
    (∀ rec ∈ (run_backtest fit θ dates sp usd tpx).1,
      (∃ q, rec.strategy = some q ∧ 0 < q) ∧ (∃ q, rec.market = some q ∧ 0 < q)) ∧
    (∃ q, (run_backtest fit θ dates sp usd tpx).2.1 = some q ∧ -100 < q) ∧
    (∃ q, (run_backtest fit θ dates sp usd tpx).2.2 = some q ∧ -100 < q) := by
  have hret : ∀ r ∈ retSeq (add_technical_indicators dates sp usd tpx), -1 < r := by
    intro r hrm
    obtain ⟨i, hi, rfl⟩ := List.mem_map.mp hrm
    have hiN := List.mem_range.mp hi
    exact realized_ret_gt _ tpx (fun rr hrr => frame_tpx_mem hrr) hpos i (by omega)
  have hmkt : ∀ k, 0 < mktProd (add_technical_indicators dates sp usd tpx) k := by
    intro k
    apply List.prod_pos
    intro a ha
    obtain ⟨r, hrm, rfl⟩ := List.mem_map.mp ha
    have := hret r (List.mem_of_mem_take hrm)
    linarith
  have hstrat : ∀ k, 0 < stratProd fit θ (add_technical_indicators dates sp usd tpx) k := by
    intro k
    apply List.prod_pos
    intro a ha
    obtain ⟨⟨pn, pr⟩, hrm, rfl⟩ := List.mem_map.mp ha
    by_cases hp : pn = 1
    · have hmem := List.mem_of_mem_take hrm
      have hz := List.of_mem_zip hmem
      have := hret pr hz.2
      simp only [if_pos hp]
      linarith
    · simp only [if_neg hp]
      norm_num
  obtain ⟨h1, h2, h3⟩ := run_backtest_eq fit θ dates sp usd tpx
  refine ⟨?_, ?_, ?_⟩
  · intro rec hrec
    rw [h1] at hrec
    obtain ⟨i, _, rfl⟩ := List.mem_map.mp hrec
    exact ⟨⟨_, rfl, hstrat _⟩, ⟨_, rfl, hmkt _⟩⟩
  · rw [h2]
    refine ⟨_, rfl, ?_⟩
    have := hstrat ((add_technical_indicators dates sp usd tpx).length - 2)
    linarith
  · rw [h3]
    refine ⟨_, rfl, ?_⟩
    have := hmkt ((add_technical_indicators dates sp usd tpx).length - 2)
    linarith

/-- C10 witness: the 18-day strictly increasing table. -/
theorem c10_positive_assets_witness :
    ∃ q, (run_backtest constFit (1/2) (demoDates 18) (demoVals 18) (demoVals 18)
      (demoVals 18)).2.2 = some q ∧ -100 < q :=
  (c10_positive_assets constFit (1/2) (demoDates 18) (demoVals 18) (demoVals 18)
    (demoVals 18) (by decide) (by decide) (by decide)
    (by with_unfolding_all decide)).2.2

end MarketSync
